import Mathlib

/-!
Verification of the U-HSP rule/condition evaluation engine
(`src/engine/RuleEvaluator.ts`, `src/engine/ContentPackLoader.ts`,
`src/config/index.ts` ActionExecutor) against its specification.

The embedding models JavaScript data values as JSON-like trees (`JValue`):
the session states and content packs consumed by the engine originate from
JSON documents and plain object literals, so they carry no functions,
no explicitly-stored `undefined`, and no shared references between the
rule literals and the session state.  The JavaScript value `undefined`
is modelled as `Option.none` at the points where it can arise
(field resolution, optional record fields).  JavaScript numbers are
modelled as integers: every numeric value the engine manipulates
(priorities, urgency ranks, step order numbers) is integral, and no
claim depends on float-specific behaviour.
-/

/-- JSON-like JavaScript data value.  Object fields are an association
list; well-formed objects (the only ones produced by JSON parsing or
object literals) have pairwise distinct keys. -/
inductive JValue where
  | vNull : JValue
  | vBool : Bool → JValue
  | vNum : Int → JValue
  | vStr : String → JValue
  | vArr : List JValue → JValue
  | vObj : List (String × JValue) → JValue

/-- JavaScript property read `value[part]` guarded by
`value && typeof value === "object" && part in value`
(the guard in `getFieldValue`, RuleEvaluator.ts:130):
`null` and primitives fail the guard; objects expose their own keys;
arrays expose their numeric indices (in canonical decimal form, as the
`in` operator requires) and `length`.  `none` is JavaScript `undefined`. -/
def getProp : JValue → String → Option JValue
  | .vObj fields, part => (fields.find? (fun kv => kv.1 == part)).map (fun kv => kv.2)
  | .vArr xs, part =>
      if part == "length" then some (.vNum xs.length)
      else
        match part.toNat? with
        | some i => if part == toString i then xs[i]? else none
        | none => none
  | _, _ => none

/-- JavaScript `path.split(".")` (String.prototype.split with the
one-character separator `"."`): splits at every dot, keeping empty
segments, and yields `[""]` for the empty string. -/
def splitOnDotGo : List Char → List Char → List String
  | [], acc => [String.mk acc.reverse]
  | c :: rest, acc =>
      if c = '.' then String.mk acc.reverse :: splitOnDotGo rest []
      else splitOnDotGo rest (c :: acc)

def splitOnDot (s : String) : List String :=
  splitOnDotGo s.data []

/-- The loop of `getFieldValue` (RuleEvaluator.ts:129-135): walk the
path segments; whenever the guard `value && typeof value === "object"
&& part in value` fails, return `undefined` (`none`). -/
def walkPath : List String → JValue → Option JValue
  | [], v => some v
  | part :: rest, v =>
      match getProp v part with
      | some next => walkPath rest next
      | none => none

/-- The source `getFieldValue(path, sessionState)` (RuleEvaluator.ts:125-138):
resolve a dot-delimited path against the session state. -/
def getFieldValue (path : String) (sessionState : JValue) : Option JValue :=
  walkPath (splitOnDot path) sessionState

/-- JavaScript strict equality `===` on data values (`none` is
`undefined`).  Primitives compare structurally; values of different
types are never strictly equal; objects and arrays compare by
reference, and the two sides compared by the evaluator always come
from disjoint structures (a rule literal and the session state), so
reference equality between them is false. -/
def strictEq : Option JValue → Option JValue → Bool
  | none, none => true
  | some .vNull, some .vNull => true
  | some (.vBool a), some (.vBool b) => a == b
  | some (.vNum a), some (.vNum b) => a == b
  | some (.vStr a), some (.vStr b) => a == b
  | _, _ => false

/-- JavaScript truthiness of a possibly-undefined data value. -/
def truthy : Option JValue → Bool
  | none => false
  | some .vNull => false
  | some (.vBool b) => b
  | some (.vNum n) => n != 0
  | some (.vStr s) => s != ""
  | some (.vArr _) => true
  | some (.vObj _) => true

/-- JavaScript `s.includes(sub)` for strings: `sub` occurs as a
contiguous substring of `s` (always true for the empty `sub`). -/
def charsInclude (sub : List Char) : List Char → Bool
  | [] => sub.isEmpty
  | c :: rest => sub.isPrefixOf (c :: rest) || charsInclude sub rest

def strIncludes (s sub : String) : Bool :=
  charsInclude sub.data s.data

/-- The `ConditionOperator` union type (types.ts:6-18).
`in` and `exists` are Lean keywords, hence `inOp` / `existsOp`. -/
inductive ConditionOperator where
  | equals | notEquals
  | greaterThan | lessThan | greaterThanOrEqual | lessThanOrEqual
  | contains | notContains
  | inOp | notIn
  | existsOp | notExists
deriving DecidableEq

/-- The `LogicalOperator` union type `"all" | "any" | "none"`
(types.ts:20).  `noneOp` because `none` clashes with `Option.none`. -/
inductive LogicalOperator where
  | all | any | noneOp
deriving DecidableEq

/-- The source `RightRuleConditionRule` (types.ts:23-27); `value` is optional. -/
structure RightRuleConditionRule where
  field : String
  operator : ConditionOperator
  value : Option JValue := none

/-- The source `RightRuleConditions` (types.ts:29-33); the optional `rules` and
`nested` arrays are represented by their `?? []` defaults, which is how
`evaluateConditions` reads them (RuleEvaluator.ts:32). -/
inductive RightRuleConditions where
  | group (type : LogicalOperator)
          (rules : List RightRuleConditionRule)
          (nested : List RightRuleConditions)

/-- The source `evaluateConditionRule` (RuleEvaluator.ts:63-119): resolve the
field, then dispatch on the operator.  The TypeScript `default` branch
is unreachable here because `ConditionOperator` is a closed union. -/
def evaluateConditionRule (rule : RightRuleConditionRule) (sessionState : JValue) : Bool :=
  let fieldValue := getFieldValue rule.field sessionState
  match rule.operator with
  | .equals => strictEq fieldValue rule.value
  | .notEquals => !strictEq fieldValue rule.value
  | .greaterThan =>
      match fieldValue, rule.value with
      | some (.vNum a), some (.vNum b) => decide (a > b)
      | _, _ => false
  | .lessThan =>
      match fieldValue, rule.value with
      | some (.vNum a), some (.vNum b) => decide (a < b)
      | _, _ => false
  | .greaterThanOrEqual =>
      match fieldValue, rule.value with
      | some (.vNum a), some (.vNum b) => decide (a ≥ b)
      | _, _ => false
  | .lessThanOrEqual =>
      match fieldValue, rule.value with
      | some (.vNum a), some (.vNum b) => decide (a ≤ b)
      | _, _ => false
  | .contains =>
      match fieldValue, rule.value with
      | some (.vStr s), some (.vStr sub) => strIncludes s sub
      | fv, v =>
          match fv with
          | some (.vArr xs) => xs.any (fun x => strictEq (some x) v)
          | _ => false
  | .notContains =>
      match fieldValue, rule.value with
      | some (.vStr s), some (.vStr sub) => !strIncludes s sub
      | fv, v =>
          match fv with
          | some (.vArr xs) => !xs.any (fun x => strictEq (some x) v)
          | _ => true
  | .inOp =>
      match rule.value with
      | some (.vArr xs) => xs.any (fun x => strictEq (some x) fieldValue)
      | _ => false
  | .notIn =>
      match rule.value with
      | some (.vArr xs) => !xs.any (fun x => strictEq (some x) fieldValue)
      | _ => false
  | .existsOp =>
      match fieldValue with
      | none => false
      | some .vNull => false
      | some _ => true
  | .notExists =>
      match fieldValue with
      | none => true
      | some .vNull => true
      | some _ => false

mutual

/-- The source `evaluateConditions` (RuleEvaluator.ts:28-58): evaluate the direct
rules, recursively evaluate the nested groups, concatenate, and
combine according to the group type.  Each branch requires the
combined result list to be non-empty. -/
def evaluateConditions : RightRuleConditions → JValue → Bool
  | .group type rules nested, sessionState =>
      let ruleResults := rules.map (fun r => evaluateConditionRule r sessionState)
      let nestedResults := evaluateConditionsList nested sessionState
      let allResults := ruleResults ++ nestedResults
      match type with
      | .all => decide (allResults.length > 0) && allResults.all (fun r => r)
      | .any => decide (allResults.length > 0) && allResults.any (fun r => r)
      | .noneOp => decide (allResults.length > 0) && allResults.all (fun r => !r)

/-- The source `nested.map(nestedCondition => this.evaluateConditions(...))`
(RuleEvaluator.ts:40-42), expressed as mutual recursion. -/
def evaluateConditionsList : List RightRuleConditions → JValue → List Bool
  | [], _ => []
  | c :: cs, sessionState =>
      evaluateConditions c sessionState :: evaluateConditionsList cs sessionState

end

/-- The source `RightRule` (types.ts:35-51).  The optional `metadata` block is
carried by the data model but never read by the engine, so it is not
modelled. -/
structure RightRule where
  id : String
  name : String
  description : Option String := none
  jurisdiction : String
  legalBasis : Option String := none
  priority : Option Int := none
  conditions : RightRuleConditions
  actions : List String

/-- The source `evaluateRule` (RuleEvaluator.ts:16-23).  The try/catch wrapper is
the identity here: the embedded evaluator is a total function, so the
catch branch (return false on exception) is unreachable. -/
def evaluateRule (rule : RightRule) (sessionState : JValue) : Bool :=
  evaluateConditions rule.conditions sessionState

/-- The source `rule.priority ?? 0` (RuleEvaluator.ts:150). -/
def rulePriority (r : RightRule) : Int :=
  r.priority.getD 0

/-- The order imposed by the comparator
`(a, b) => (b.priority ?? 0) - (a.priority ?? 0)` (RuleEvaluator.ts:149-151):
`a` may be placed no later than `b` exactly when the comparator is ≤ 0,
i.e. descending priority. -/
def ruleOrder (a b : RightRule) : Prop :=
  rulePriority b ≤ rulePriority a

instance : DecidableRel ruleOrder :=
  fun a b => Int.decLe (rulePriority b) (rulePriority a)

instance : IsTotal RightRule ruleOrder :=
  ⟨fun a b => le_total (rulePriority b) (rulePriority a)⟩

instance : IsTrans RightRule ruleOrder :=
  ⟨fun _ _ _ h1 h2 => le_trans h2 h1⟩

/-- The source `[...rules].sort((a, b) => (b.priority ?? 0) - (a.priority ?? 0))`
(RuleEvaluator.ts:149-151).  ECMAScript `Array.prototype.sort` with a
consistent comparator is specified to be a stable sort; a stable sort
by a total preorder is uniquely determined, so it is modelled by
insertion sort (which is stable). -/
def sortRulesByPriority (rules : List RightRule) : List RightRule :=
  List.insertionSort ruleOrder rules

/-- The source `evaluateRules` (RuleEvaluator.ts:144-157): sort descending by
priority, then keep the rules that match. -/
def evaluateRules (rules : List RightRule) (sessionState : JValue) : List RightRule :=
  (sortRulesByPriority rules).filter (fun rule => evaluateRule rule sessionState)

/-- The source `Question` (types.ts:237-272); only `id` and `text` are required,
and only `id` is read by the loader operations modelled here, so the
other optional presentation fields are not modelled. -/
structure Question where
  id : String
  text : String

/-- The source `Service` (types.ts:165-211); of its fields only `id` (validation)
is read by the operations modelled here. -/
structure Service where
  id : String
  name : String

/-- The source `ActionType` (types.ts:54). -/
inductive ActionType where
  | immediate | referral | application | assessment | notification | documentation
deriving DecidableEq

/-- The source `ActionCategory` (types.ts:55). -/
inductive ActionCategory where
  | emergency | housing | financial | support | legal | medical | other
deriving DecidableEq

/-- The source `ActionUrgency` (types.ts:56). -/
inductive ActionUrgency where
  | critical | high | medium | low
deriving DecidableEq

/-- The source `InputFieldType` (types.ts:57). -/
inductive InputFieldType where
  | text | number | date | boolean | select | multiselect | textarea
deriving DecidableEq

/-- The source `ActionInputField` (types.ts:59-66); `options`/`validation` are
never read by the executor and are not modelled. -/
structure ActionInputField where
  name : String
  label : Option String := none
  type : InputFieldType
  required : Option Bool := none
deriving DecidableEq

/-- The source `ActionStep` (types.ts:68-73). -/
structure ActionStep where
  order : Int
  instruction : String
  requiresInput : Option Bool := none
  inputFields : Option (List ActionInputField) := none
deriving DecidableEq

/-- The source `ActionContactInfo` (types.ts:75-81). -/
structure ActionContactInfo where
  phone : Option String := none
  email : Option String := none
  website : Option String := none
  address : Option String := none
  hoursOfOperation : Option String := none
deriving DecidableEq

/-- The source `ActionTemplate` (types.ts:89-116).  `relatedServices`,
`documentation`, `outcomes` and `metadata` are never read by the
operations modelled here (`prepareAction`, `executeAction`,
`executeActions`, `formatActionSteps`, pack validation) and are not
modelled. -/
structure ActionTemplate where
  id : String
  name : String
  description : Option String := none
  type : ActionType
  category : ActionCategory
  urgency : Option ActionUrgency := none
  steps : Option (List ActionStep) := none
  requiredInformation : Option (List String) := none
  estimatedDuration : Option String := none
  contactInfo : Option ActionContactInfo := none
  prerequisites : Option (List String) := none
deriving DecidableEq

/-- The source `ContentPack` (types.ts:373-431).  The fields read by the loader
are modelled; `workflows`, `legalReferences`, `resources` and
`metadata` are opaque payload never read by any loader operation. -/
structure ContentPack where
  id : String
  name : String
  description : Option String := none
  version : String
  jurisdiction : String
  entryPoint : Option String := none
  questions : Option (List Question) := none
  rules : Option (List RightRule) := none
  actions : Option (List ActionTemplate) := none
  services : Option (List Service) := none

/-- The test `/^\d+\.\d+\.\d+$/.test(version)`
(ContentPackLoader.ts:166-167).  A string matches that regular
expression exactly when splitting it on `'.'` yields exactly three
non-empty all-digit segments: `\d` cannot match a dot, so the two
literal dots of the pattern correspond exactly to two dot occurrences
in the string. -/
def versionRegexTest (s : String) : Bool :=
  match splitOnDot s with
  | [a, b, c] =>
      !a.isEmpty && !b.isEmpty && !c.isEmpty
        && a.data.all Char.isDigit && b.data.all Char.isDigit && c.data.all Char.isDigit
  | _ => false

/-- The loop of `checkDuplicateIds` (ContentPackLoader.ts:185-190):
walk the ids with a seen-set, recording each id that was already seen. -/
def collectDuplicates : List String → List String → List String
  | [], _ => []
  | i :: rest, seen =>
      if seen.contains i then i :: collectDuplicates rest (i :: seen)
      else collectDuplicates rest (i :: seen)

/-- The source `checkDuplicateIds(items, type)` (ContentPackLoader.ts:181-197),
applied to the ids of the items. -/
def checkDuplicateIds (ids : List String) (collection : String) : Except String Unit :=
  let duplicates := collectDuplicates ids []
  if duplicates.length > 0 then
    Except.error ("Duplicate " ++ collection ++ " IDs found in content pack: "
      ++ String.intercalate ", " duplicates)
  else
    Except.ok ()

/-- The source `validateContentPack` (ContentPackLoader.ts:151-176).  A thrown
`Error` is an `Except.error` carrying its message, aborting the
remaining checks; `!pack.id` etc. test JavaScript string falsiness,
i.e. emptiness.  The duplicate checks read each collection through its
`?? []` default. -/
def validateContentPack (pack : ContentPack) : Except String Unit :=
  if pack.id = "" then .error "Content pack must have an id"
  else if pack.name = "" then .error "Content pack must have a name"
  else if pack.version = "" then .error "Content pack must have a version"
  else if pack.jurisdiction = "" then .error "Content pack must have a jurisdiction"
  else if !versionRegexTest pack.version then
    .error "Content pack version must follow semantic versioning (e.g., 1.0.0)"
  else
    match checkDuplicateIds ((pack.questions.getD []).map (fun q => q.id)) "questions" with
    | .error e => .error e
    | .ok _ =>
      match checkDuplicateIds ((pack.rules.getD []).map (fun r => r.id)) "rules" with
      | .error e => .error e
      | .ok _ =>
        match checkDuplicateIds ((pack.actions.getD []).map (fun a => a.id)) "actions" with
        | .error e => .error e
        | .ok _ =>
          checkDuplicateIds ((pack.services.getD []).map (fun s => s.id)) "services"

/-- The loader state `loadedPacks: Map<string, ContentPack>`
(ContentPackLoader.ts:8), as an insertion-ordered association list with
distinct keys, which is exactly the JavaScript `Map` contract. -/
abbrev PackMap : Type := List (String × ContentPack)

/-- The source `Map.prototype.set`: replace in place if the key exists, else
append. -/
def packMapSet (m : PackMap) (k : String) (v : ContentPack) : PackMap :=
  if (List.any m (fun kv => kv.1 == k)) then
    List.map (fun kv => if kv.1 == k then (k, v) else kv) m
  else
    List.append m [(k, v)]

/-- The source `loadContentPack` (ContentPackLoader.ts:13-16): validate, then
register.  A validation failure propagates as the thrown error and
leaves the map untouched; the pair returns the post-call map together
with the thrown message, if any. -/
def loadContentPack (packData : ContentPack) (m : PackMap) : PackMap × Option String :=
  match validateContentPack packData with
  | .error e => (m, some e)
  | .ok _ => (packMapSet m packData.id packData, none)

/-- The source `getContentPack` (ContentPackLoader.ts:39-41): `Map.prototype.get`. -/
def getContentPack (packId : String) (m : PackMap) : Option ContentPack :=
  (List.find? (fun kv => kv.1 == packId) m).map (fun kv => kv.2)

/-- The source `getAllContentPacks` (ContentPackLoader.ts:46-48):
`Array.from(map.values())`. -/
def getAllContentPacks (m : PackMap) : List ContentPack :=
  List.map (fun kv => kv.2) m

/-- The source `removeContentPack` (ContentPackLoader.ts:209-211):
`Map.prototype.delete`, returning the new map and whether the key was
present. -/
def removeContentPack (packId : String) (m : PackMap) : PackMap × Bool :=
  (List.filter (fun kv => kv.1 != packId) m, List.any m (fun kv => kv.1 == packId))

/-- The source `clearAll` (ContentPackLoader.ts:202-204): `Map.prototype.clear`. -/
def clearAll : PackMap := []

/-- The status union of `ActionExecutionResult` (config/index.ts:604). -/
inductive ExecStatus where
  | completed | pending | failed | skipped
deriving DecidableEq

/-- The source `ActionExecutionResult` (config/index.ts:602-609); the optional
`outcome`/`notes` fields are never written by the executor. -/
structure ActionExecutionResult where
  actionId : String
  status : ExecStatus
  message : Option String := none
  timestamp : String
deriving DecidableEq

/-- Optional chaining `v?.part`: `undefined` short-circuits, otherwise
an ordinary property read. -/
def optChain (v : Option JValue) (part : String) : Option JValue :=
  match v with
  | some x => getProp x part
  | none => none

/-- The source `hasRequiredInfo(info, sessionState)` (config/index.ts:794-816):
keyword matching with `toLowerCase`/`includes` against a fixed set of
semantic predicates; unrecognized tags default to true. -/
def hasRequiredInfo (info : String) (sessionState : JValue) : Bool :=
  let infoLower := info.toLower
  if strIncludes infoLower "location" then
    truthy (optChain (getProp sessionState "situation") "currentLocation")
  else if strIncludes infoLower "age" then
    truthy (optChain (getProp sessionState "user") "age")
  else if strIncludes infoLower "children" || strIncludes infoLower "dependents" then
    (optChain (getProp sessionState "user") "hasChildren").isSome
  else if strIncludes infoLower "name" then
    truthy (optChain (getProp sessionState "user") "firstName")
      && truthy (optChain (getProp sessionState "user") "lastName")
  else if strIncludes infoLower "contact" then
    truthy (optChain (optChain (getProp sessionState "user") "contact") "phone")
      || truthy (optChain (optChain (getProp sessionState "user") "contact") "email")
  else
    true

/-- The source `sessionState.completedActions?.map(a => a.actionId) ?? []`
(config/index.ts:642-644).  The TypeScript type confines
`completedActions` to an array when present, so the branch for a
present non-array value (unreachable through the typed interface) also
yields the empty default. -/
def completedActionIds (sessionState : JValue) : List (Option JValue) :=
  match getProp sessionState "completedActions" with
  | some (.vArr xs) => xs.map (fun a => getProp a "actionId")
  | _ => []

/-- The record returned by `prepareAction` (config/index.ts:620-627). -/
structure PreparedAction where
  action : ActionTemplate
  missingInformation : List String
  canExecute : Bool
deriving DecidableEq

/-- The source `prepareAction` (config/index.ts:620-658): collect the required
information tags that are not satisfied, then the prerequisites whose
ids are not among the completed actions; `canExecute` holds when
nothing is missing. -/
def prepareAction (action : ActionTemplate) (sessionState : JValue) : PreparedAction :=
  let missingInfo :=
    (action.requiredInformation.getD []).filter
      (fun info => !hasRequiredInfo info sessionState)
  let completed := completedActionIds sessionState
  let missingPrereqs :=
    ((action.prerequisites.getD []).filter
      (fun prereqId => !completed.any (fun x => strictEq x (some (.vStr prereqId))))).map
      (fun prereqId => "Prerequisite action: " ++ prereqId)
  let missingInformation := missingInfo ++ missingPrereqs
  { action := action
    missingInformation := missingInformation
    canExecute := missingInformation.length = 0 }

/-- The source `executeAction` (config/index.ts:665-697).  `new Date().toISOString()`
is modelled by the explicitly passed clock reading `now`. -/
def executeAction (action : ActionTemplate) (sessionState : JValue) (now : String) :
    ActionExecutionResult :=
  let prepared := prepareAction action sessionState
  if !prepared.canExecute then
    { actionId := action.id
      status := .pending
      message := some ("Missing required information: "
        ++ String.intercalate ", " prepared.missingInformation)
      timestamp := now }
  else if action.urgency = some .critical ∨ action.urgency = some .high then
    { actionId := action.id
      status := .pending
      message := some "Action prepared for execution. Follow the steps provided."
      timestamp := now }
  else
    { actionId := action.id
      status := .completed
      message := some "Action executed successfully"
      timestamp := now }

/-- The source `urgencyOrder[a.urgency ?? "medium"]` (config/index.ts:707-710). -/
def urgencyRank (u : Option ActionUrgency) : Int :=
  match u.getD .medium with
  | .critical => 0
  | .high => 1
  | .medium => 2
  | .low => 3

/-- The order imposed by the comparator `(a, b) => aUrgency - bUrgency`
(config/index.ts:708-712): ascending urgency rank. -/
def actionOrder (a b : ActionTemplate) : Prop :=
  urgencyRank a.urgency ≤ urgencyRank b.urgency

instance : DecidableRel actionOrder :=
  fun a b => Int.decLe (urgencyRank a.urgency) (urgencyRank b.urgency)

instance : IsTotal ActionTemplate actionOrder :=
  ⟨fun a b => le_total (urgencyRank a.urgency) (urgencyRank b.urgency)⟩

instance : IsTrans ActionTemplate actionOrder :=
  ⟨fun _ _ _ h1 h2 => le_trans h1 h2⟩

/-- The source `[...actions].sort(...)` (config/index.ts:708-712): the stable
ECMAScript sort by urgency rank, modelled by insertion sort as for the
rule sort. -/
def sortActionsByUrgency (actions : List ActionTemplate) : List ActionTemplate :=
  List.insertionSort actionOrder actions

/-- The source `executeActions` (config/index.ts:702-717): stable-sort by urgency,
then execute each action in that order. -/
def executeActions (actions : List ActionTemplate) (sessionState : JValue) (now : String) :
    List ActionExecutionResult :=
  (sortActionsByUrgency actions).map (fun action => executeAction action sessionState now)

/-- JavaScript truthiness of an optional string field: absent or empty
is falsy. -/
def truthyStr (o : Option String) : Bool :=
  o.getD "" ≠ ""

/-- The order imposed by the step comparator `(a, b) => a.order - b.order`
(config/index.ts:739): ascending step order. -/
def stepOrder (a b : ActionStep) : Prop :=
  a.order ≤ b.order

instance : DecidableRel stepOrder :=
  fun a b => Int.decLe a.order b.order

instance : IsTotal ActionStep stepOrder :=
  ⟨fun a b => le_total a.order b.order⟩

instance : IsTrans ActionStep stepOrder :=
  ⟨fun _ _ _ h1 h2 => le_trans h1 h2⟩

/-- The body of the per-step `.map` callback (config/index.ts:740-751):
the numbered instruction line, followed by the input-field prompt lines
when `requiresInput` is truthy and `inputFields` is present (an array,
even empty, is truthy). -/
def formatStep (step : ActionStep) : String :=
  let stepText := toString step.order ++ ". " ++ step.instruction
  if step.requiresInput = some true ∧ step.inputFields.isSome then
    let fields := String.intercalate "\n"
      ((step.inputFields.getD []).map (fun f =>
        "   - " ++ f.label.getD f.name
          ++ (if f.required = some true then " (required)" else "")))
    stepText ++ "\n" ++ fields
  else
    stepText

/-- The display string for an urgency value (`action.urgency` is the
literal string in the source). -/
def urgencyString : ActionUrgency → String
  | .critical => "critical"
  | .high => "high"
  | .medium => "medium"
  | .low => "low"

/-- The source `formatActionSteps` (config/index.ts:733-788).  The source sorts
`action.steps` with `Array.prototype.sort`, which reorders the steps
array IN PLACE (there is no `[...]` copy here, unlike the sorts in
`evaluateRules` and `executeActions`); the second component of the
result is the observable post-call state of the `action` argument,
whose `steps` array has been permuted by that in-place sort. -/
def formatActionSteps (action : ActionTemplate) : String × ActionTemplate :=
  match action.steps with
  | none => (action.description.getD "No steps available", action)
  | some steps =>
      if steps.length = 0 then
        (action.description.getD "No steps available", action)
      else
        let sortedSteps := List.insertionSort stepOrder steps
        let stepsText := String.intercalate "\n\n" (sortedSteps.map formatStep)
        let header := action.name ++ "\n"
          ++ String.mk (List.replicate action.name.length '=') ++ "\n\n"
        let descPart :=
          if truthyStr action.description then action.description.getD "" ++ "\n\n" else ""
        let urgencyPart :=
          match action.urgency with
          | some u => "Urgency: " ++ (urgencyString u).toUpper ++ "\n\n"
          | none => ""
        let durationPart :=
          if truthyStr action.estimatedDuration then
            "\nEstimated Duration: " ++ action.estimatedDuration.getD "" ++ "\n"
          else ""
        let contactPart :=
          match action.contactInfo with
          | none => ""
          | some ci =>
              "\nContact Information:\n"
                ++ (if truthyStr ci.phone then "  Phone: " ++ ci.phone.getD "" ++ "\n" else "")
                ++ (if truthyStr ci.email then "  Email: " ++ ci.email.getD "" ++ "\n" else "")
                ++ (if truthyStr ci.website then
                      "  Website: " ++ ci.website.getD "" ++ "\n" else "")
                ++ (if truthyStr ci.hoursOfOperation then
                      "  Hours: " ++ ci.hoursOfOperation.getD "" ++ "\n" else "")
        (header ++ descPart ++ urgencyPart ++ "Steps:\n" ++ stepsText ++ "\n"
          ++ durationPart ++ contactPart,
         { action with steps := some sortedSteps })

/-- Discriminator for `Array.isArray(value)` on a possibly-undefined
value (RuleEvaluator.ts:108,110). -/
def isArrayValue : Option JValue → Bool
  | some (.vArr _) => true
  | _ => false

/-- The structural validity predicate enforced by `validateContentPack`
(§4.4 of the specification): required fields non-empty, semantic
version format, and no duplicate ids within any one of the four
collections. -/
def WellFormedPack (pack : ContentPack) : Prop :=
  pack.id ≠ "" ∧ pack.name ≠ "" ∧ pack.version ≠ "" ∧ pack.jurisdiction ≠ ""
    ∧ versionRegexTest pack.version = true
    ∧ ((pack.questions.getD []).map (fun q => q.id)).Nodup
    ∧ ((pack.rules.getD []).map (fun r => r.id)).Nodup
    ∧ ((pack.actions.getD []).map (fun a => a.id)).Nodup
    ∧ ((pack.services.getD []).map (fun s => s.id)).Nodup

instance (pack : ContentPack) : Decidable (WellFormedPack pack) := by
  unfold WellFormedPack
  infer_instance

/-- The repository invariant: every pack stored in the loader map is
structurally valid. -/
def PackMapInv (m : PackMap) : Prop :=
  ∀ kv ∈ m, WellFormedPack kv.2

instance (m : PackMap) : Decidable (PackMapInv m) := by
  unfold PackMapInv
  infer_instance

/-- A concrete action template used by witness instantiations. -/
def sampleAction : ActionTemplate :=
  { id := "a1", name := "Contact the housing team", type := .immediate,
    category := .emergency }

/-- A concrete content pack with two actions sharing the id `a1`. -/
def dupActionPack : ContentPack :=
  { id := "p1", name := "Sample pack", version := "1.0.0", jurisdiction := "UK",
    actions := some [sampleAction, { sampleAction with name := "Second copy" }] }

/-- A concrete valid content pack. -/
def validPack : ContentPack :=
  { id := "p2", name := "Valid pack", version := "2.10.3", jurisdiction := "UK" }

/-- A concrete action with neither required information nor
prerequisites and no urgency, used by witness instantiations. -/
def plainAction : ActionTemplate :=
  { id := "a2", name := "Collect documents", type := .documentation, category := .other }

/-- Concrete steps supplied out of numeric order. -/
def stepOne : ActionStep :=
  { order := 1, instruction := "Call the council housing options line" }

def stepTwo : ActionStep :=
  { order := 2, instruction := "Attend the appointment" }

/-- A concrete action whose steps are supplied out of numeric order. -/
def outOfOrderAction : ActionTemplate :=
  { id := "a3", name := "Homelessness application", type := .application,
    category := .housing, steps := some [stepTwo, stepOne] }

/-! Theorems about the embedded operations. -/

theorem collectDuplicates_eq_nil (ids seen : List String) :
    collectDuplicates ids seen = [] ↔ ids.Nodup ∧ ∀ i ∈ ids, i ∉ seen := by
  induction ids generalizing seen with
  | nil => simp [collectDuplicates]
  | cons i rest ih =>
      unfold collectDuplicates
      by_cases h : i ∈ seen
      · have hc : seen.contains i = true := by
          simpa using h
        simp only [hc, if_pos]
        constructor
        · intro hfalse
          exact absurd hfalse (by simp)
        · rintro ⟨-, hall⟩
          exact absurd (hall i (by simp)) (by simpa using h)
      · have hc : seen.contains i = false := by
          simpa using h
        simp only [hc, Bool.false_eq_true, if_neg, not_false_iff]
        rw [ih (i :: seen)]
        constructor
        · rintro ⟨hnd, hall⟩
          refine ⟨List.nodup_cons.mpr ⟨fun hmem => ?_, hnd⟩, ?_⟩
          · exact absurd (hall i hmem) (by simp)
          · intro j hj
            rcases List.mem_cons.mp hj with rfl | hj'
            · exact h
            · intro hjs
              exact absurd (List.mem_cons_of_mem i hjs) (hall j hj')
        · rintro ⟨hnd, hall⟩
          obtain ⟨hni, hnd'⟩ := List.nodup_cons.mp hnd
          refine ⟨hnd', fun j hj hjmem => ?_⟩
          rcases List.mem_cons.mp hjmem with rfl | hjs
          · exact hni hj
          · exact hall j (List.mem_cons_of_mem i hj) hjs

theorem checkDuplicateIds_ok_iff (ids : List String) (c : String) :
    checkDuplicateIds ids c = .ok () ↔ ids.Nodup := by
  unfold checkDuplicateIds
  by_cases h : collectDuplicates ids [] = []
  · have hnd := (collectDuplicates_eq_nil ids []).mp h
    simp [h, hnd.1]
  · have : ¬ ids.Nodup := by
      intro hnd
      exact h ((collectDuplicates_eq_nil ids []).mpr ⟨hnd, by simp⟩)
    have hlen : 0 < (collectDuplicates ids []).length := List.length_pos.mpr h
    simp only [if_pos hlen]
    simp [this]

theorem validateContentPack_ok_iff (pack : ContentPack) :
    validateContentPack pack = .ok () ↔ WellFormedPack pack := by
  unfold validateContentPack WellFormedPack
  split_ifs with h1 h2 h3 h4 h5
  · simp [h1]
  · simp [h2]
  · simp [h3]
  · simp [h4]
  · simp only [Bool.not_eq_true'] at h5
    simp [h1, h2, h3, h4, h5]
  · simp only [Bool.not_eq_true', Bool.not_eq_false] at h5
    cases hq : checkDuplicateIds ((pack.questions.getD []).map (fun q => q.id)) "questions" with
    | error e =>
        have : ¬ ((pack.questions.getD []).map (fun q => q.id)).Nodup := by
          intro hnd
          rw [(checkDuplicateIds_ok_iff _ _).mpr hnd] at hq
          cases hq
        simp [this, h1, h2, h3, h4]
    | ok u =>
        cases u
        have hqn := (checkDuplicateIds_ok_iff _ _).mp hq
        cases hr : checkDuplicateIds ((pack.rules.getD []).map (fun r => r.id)) "rules" with
        | error e =>
            have : ¬ ((pack.rules.getD []).map (fun r => r.id)).Nodup := by
              intro hnd
              rw [(checkDuplicateIds_ok_iff _ _).mpr hnd] at hr
              cases hr
            simp [this, h1, h2, h3, h4]
        | ok u =>
            cases u
            have hrn := (checkDuplicateIds_ok_iff _ _).mp hr
            cases ha : checkDuplicateIds
                ((pack.actions.getD []).map (fun a => a.id)) "actions" with
            | error e =>
                have : ¬ ((pack.actions.getD []).map (fun a => a.id)).Nodup := by
                  intro hnd
                  rw [(checkDuplicateIds_ok_iff _ _).mpr hnd] at ha
                  cases ha
                simp [this, h1, h2, h3, h4]
            | ok u =>
                cases u
                have han := (checkDuplicateIds_ok_iff _ _).mp ha
                rw [checkDuplicateIds_ok_iff]
                simp [h1, h2, h3, h4, h5, hqn, hrn, han]

/-- C4: `loadContentPack` rejects every structurally invalid pack — a
missing (empty) id, name, version or jurisdiction, a version string not
matching `\d+\.\d+\.\d+` exactly, or a duplicate id within the
questions, rules, actions or services collection — by raising a
descriptive error and leaving the repository map unchanged (the pack is
not registered; all-or-nothing load). -/
theorem c4_loadContentPack_rejects_invalid (pack : ContentPack) (m : PackMap)
    (h : pack.id = "" ∨ pack.name = "" ∨ pack.version = "" ∨ pack.jurisdiction = ""
      ∨ versionRegexTest pack.version = false
      ∨ ¬ ((pack.questions.getD []).map (fun q => q.id)).Nodup
      ∨ ¬ ((pack.rules.getD []).map (fun r => r.id)).Nodup
      ∨ ¬ ((pack.actions.getD []).map (fun a => a.id)).Nodup
      ∨ ¬ ((pack.services.getD []).map (fun s => s.id)).Nodup) :
    (loadContentPack pack m).1 = m ∧ ∃ e, (loadContentPack pack m).2 = some e := by
  have hnw : ¬ WellFormedPack pack := by
    intro hw
    obtain ⟨w1, w2, w3, w4, w5, w6, w7, w8, w9⟩ := hw
    rcases h with h | h | h | h | h | h | h | h | h <;> simp_all
  have hval : ∃ e, validateContentPack pack = .error e := by
    cases hv : validateContentPack pack with
    | error e => exact ⟨e, rfl⟩
    | ok u =>
        cases u
        exact absurd ((validateContentPack_ok_iff pack).mp hv) hnw
  obtain ⟨e, he⟩ := hval
  unfold loadContentPack
  rw [he]
  exact ⟨rfl, e, rfl⟩

/-- C4 witness: a pack containing two actions sharing the id `a1` is
rejected and the repository stays empty; the version string `1.0` also
fails the version-format test. -/
theorem c4_witness :
    ¬ ((dupActionPack.actions.getD []).map (fun a => a.id)).Nodup
    ∧ versionRegexTest "1.0" = false
    ∧ (loadContentPack dupActionPack []).1 = []
    ∧ ∃ e, (loadContentPack dupActionPack []).2 = some e := by
  have h := c4_loadContentPack_rejects_invalid dupActionPack []
    (by right; right; right; right; right; right; right; left; decide)
  exact ⟨by decide, by decide, h.1, h.2⟩

theorem mem_packMapSet (m : PackMap) (k : String) (v : ContentPack)
    (kv : String × ContentPack) (h : kv ∈ packMapSet m k v) : kv ∈ m ∨ kv.2 = v := by
  unfold packMapSet at h
  split at h
  · obtain ⟨a, ha, hae⟩ := List.mem_map.mp h
    by_cases hk : a.1 == k
    · rw [if_pos hk] at hae
      right
      rw [← hae]
    · rw [if_neg hk] at hae
      left
      rw [← hae]
      exact ha
  · rcases List.mem_append.mp h with h' | h'
    · exact Or.inl h'
    · right
      have : kv = (k, v) := by simpa using h'
      rw [this]

/-- C9: every pack reachable in the loader map satisfies the
structural validity predicate (non-empty id, name, version and
jurisdiction, semantic version format, no duplicate ids in any of the
four collections), and this invariant is preserved by every operation:
`loadContentPack`, `removeContentPack`, `clearAll`, and the read-only
accessors `getContentPack` and `getAllContentPacks` only ever expose
valid packs. -/
theorem c9_repository_invariant :
    (∀ (m : PackMap) (pack : ContentPack),
        PackMapInv m → PackMapInv (loadContentPack pack m).1)
    ∧ (∀ (m : PackMap) (k : String),
        PackMapInv m → PackMapInv (removeContentPack k m).1)
    ∧ PackMapInv clearAll
    ∧ (∀ (m : PackMap) (k : String) (pack : ContentPack),
        PackMapInv m → getContentPack k m = some pack → WellFormedPack pack)
    ∧ (∀ (m : PackMap) (pack : ContentPack),
        PackMapInv m → pack ∈ getAllContentPacks m → WellFormedPack pack) := by
  refine ⟨?_, ?_, ?_, ?_, ?_⟩
  · intro m pack hinv
    unfold loadContentPack
    cases hv : validateContentPack pack with
    | error e => exact hinv
    | ok u =>
        cases u
        intro kv hkv
        rcases mem_packMapSet m pack.id pack kv hkv with hmem | heq
        · exact hinv kv hmem
        · rw [heq]
          exact (validateContentPack_ok_iff pack).mp hv
  · intro m k hinv kv hkv
    exact hinv kv (List.mem_of_mem_filter hkv)
  · intro kv hkv
    cases hkv
  · intro m k pack hinv hget
    unfold getContentPack at hget
    obtain ⟨kv, hfind, hsnd⟩ := Option.map_eq_some'.mp hget
    have hmem := List.mem_of_find?_eq_some hfind
    rw [← hsnd]
    exact hinv kv hmem
  · intro m pack hinv hmem
    obtain ⟨kv, hkv, heq⟩ := List.mem_map.mp hmem
    rw [← heq]
    exact hinv kv hkv

/-- C9 witness: loading a concrete valid pack into the empty
repository, then removing a key, both preserve the invariant, and the
loaded pack read back through `getContentPack` is valid. -/
theorem c9_witness :
    PackMapInv (loadContentPack validPack clearAll).1
    ∧ PackMapInv (removeContentPack "p1" (loadContentPack validPack clearAll).1).1 := by
  have h1 : PackMapInv (loadContentPack validPack clearAll).1 :=
    c9_repository_invariant.1 clearAll validPack (fun kv hkv => absurd hkv (by simp [clearAll]))
  exact ⟨h1, c9_repository_invariant.2.1 _ "p1" h1⟩

/-- Splitting a concatenation walks the first segment list and, if it
survives, continues with the second: the loop of `getFieldValue`
processes the segments left to right. -/
theorem walkPath_cons (p : String) (rest : List String) (v : JValue) :
    walkPath (p :: rest) v
      = match getProp v p with
        | some next => walkPath rest next
        | none => none := rfl

theorem walkPath_append (l₁ l₂ : List String) (st : JValue) :
    walkPath (l₁ ++ l₂) st = (walkPath l₁ st).bind (fun v => walkPath l₂ v) := by
  induction l₁ generalizing st with
  | nil => rfl
  | cons p rest ih =>
      rw [List.cons_append, walkPath_cons, walkPath_cons]
      cases h : getProp st p with
      | none => rfl
      | some next => exact ih next

/-- Stability of the modelled ECMAScript sort: filtering the sorted
list by a predicate whose satisfying elements are pairwise related by
the sort order (for instance, elements sharing one sort key) returns
those elements in their original input order. -/
theorem filter_insertionSort_eq {α : Type} (r : α → α → Prop) [DecidableRel r]
    (l : List α) (q : α → Bool)
    (hq : ∀ a b, q a = true → q b = true → r a b) :
    (List.insertionSort r l).filter q = l.filter q := by
  have hpair : (l.filter q).Pairwise r :=
    List.pairwise_of_forall_mem_list (fun a ha b hb =>
      hq a b (List.of_mem_filter ha) (List.of_mem_filter hb))
  have hsub : List.Sublist (l.filter q) (List.insertionSort r l) :=
    List.sublist_insertionSort hpair (List.filter_sublist l)
  have hself : (l.filter q).filter q = l.filter q :=
    List.filter_eq_self.mpr (fun a ha => List.of_mem_filter ha)
  have hsub2 : List.Sublist (l.filter q) ((List.insertionSort r l).filter q) := by
    have := hsub.filter q
    rwa [hself] at this
  have hperm : List.Perm ((List.insertionSort r l).filter q) (l.filter q) :=
    (List.perm_insertionSort r l).filter q
  exact (hsub2.eq_of_length hperm.length_eq.symm).symm

/-- C2: `evaluateRules` returns exactly the rules whose condition tree
evaluates true (as a permutation of the matched sublist of the input),
in descending priority order with an absent priority treated as `0`,
and matched rules of equal priority keep their relative input order:
for each priority `p`, the priority-`p` part of the output is the
matched priority-`p` part of the input in input order. -/
theorem c2_evaluateRules_priority_order (rules : List RightRule) (st : JValue) :
    List.Perm (evaluateRules rules st) (rules.filter (fun r => evaluateRule r st))
    ∧ (evaluateRules rules st).Pairwise (fun a b => rulePriority b ≤ rulePriority a)
    ∧ ∀ p : Int,
        (evaluateRules rules st).filter (fun r => rulePriority r == p)
          = rules.filter (fun r => evaluateRule r st && rulePriority r == p) := by
  refine ⟨?_, ?_, ?_⟩
  · exact (List.perm_insertionSort ruleOrder rules).filter _
  · exact (List.sorted_insertionSort ruleOrder rules).filter _
  · intro p
    have h1 : (evaluateRules rules st).filter (fun r => rulePriority r == p)
        = (List.insertionSort ruleOrder rules).filter
            (fun r => (rulePriority r == p) && evaluateRule r st) := by
      simp [evaluateRules, sortRulesByPriority, List.filter_filter]
    have h2 : (List.insertionSort ruleOrder rules).filter
          (fun r => (rulePriority r == p) && evaluateRule r st)
        = rules.filter (fun r => (rulePriority r == p) && evaluateRule r st) := by
      refine filter_insertionSort_eq ruleOrder rules _ (fun a b ha hb => ?_)
      have ha' : rulePriority a = p := by
        have := (Bool.and_elim_left ha)
        exact beq_iff_eq.mp this
      have hb' : rulePriority b = p := by
        have := (Bool.and_elim_left hb)
        exact beq_iff_eq.mp this
      show rulePriority b ≤ rulePriority a
      rw [ha', hb']
    have h3 : rules.filter (fun r => (rulePriority r == p) && evaluateRule r st)
        = rules.filter (fun r => evaluateRule r st && rulePriority r == p) :=
      List.filter_congr (fun a _ => Bool.and_comm _ _)
    rw [h1, h2, h3]

/-- C6: `executeActions` executes the actions in stable urgency-rank
order (`critical` before `high` before `medium` before `low`, an
absent urgency ranked as `medium`) and returns the results in that
order; actions of equal urgency rank keep their relative input order. -/
theorem c6_executeActions_urgency_order (actions : List ActionTemplate) (st : JValue)
    (now : String) :
    executeActions actions st now
      = (sortActionsByUrgency actions).map (fun a => executeAction a st now)
    ∧ List.Perm (sortActionsByUrgency actions) actions
    ∧ (sortActionsByUrgency actions).Pairwise
        (fun a b => urgencyRank a.urgency ≤ urgencyRank b.urgency)
    ∧ ∀ k : Int,
        (sortActionsByUrgency actions).filter (fun a => urgencyRank a.urgency == k)
          = actions.filter (fun a => urgencyRank a.urgency == k) := by
  refine ⟨rfl, List.perm_insertionSort actionOrder actions,
    List.sorted_insertionSort actionOrder actions, ?_⟩
  intro k
  refine filter_insertionSort_eq actionOrder actions _ (fun a b ha hb => ?_)
  show urgencyRank a.urgency ≤ urgencyRank b.urgency
  rw [beq_iff_eq.mp ha, beq_iff_eq.mp hb]

/-- C1: a condition group with an empty rules list and an empty nested
list evaluates to `false` against every session state, for each of the
three group types `all`, `any` and `none`. -/
theorem c1_empty_group_evaluates_false (t : LogicalOperator) (st : JValue) :
    evaluateConditions (.group t [] []) st = false := by
  cases t <;> simp [evaluateConditions, evaluateConditionsList]

/-- C3: field resolution is total and yields the absent sentinel
(`none`, JavaScript `undefined`) whenever a segment of the path —
intermediate or final — is missing, instead of raising an error; in
particular the atomic condition
`{field: "situation.homelessTonight", operator: "equals", value: true}`
evaluates to `false` against any session state with no `situation`
member. -/
theorem c3_missing_path_segments_resolve_to_undefined :
    (∀ (front : List String) (part : String) (rest : List String) (st v : JValue),
        walkPath front st = some v → getProp v part = none →
        walkPath (front ++ part :: rest) st = none)
    ∧ (∀ st : JValue, getProp st "situation" = none →
        evaluateConditionRule
          ⟨"situation.homelessTonight", .equals, some (.vBool true)⟩ st = false) := by
  constructor
  · intro front part rest st v hfront hpart
    rw [walkPath_append, hfront]
    show walkPath (part :: rest) v = none
    unfold walkPath
    rw [hpart]
  · intro st hst
    have hsplit : splitOnDot "situation.homelessTonight"
        = ["situation", "homelessTonight"] := by decide
    have hfv : getFieldValue "situation.homelessTonight" st = none := by
      unfold getFieldValue
      rw [hsplit]
      unfold walkPath
      rw [hst]
    simp [evaluateConditionRule, hfv, strictEq]

/-- C3 witness: a concrete session state with no `situation` member. -/
theorem c3_witness :
    getProp (JValue.vObj [("sessionId", JValue.vStr "s1")]) "situation" = none
    ∧ evaluateConditionRule
        ⟨"situation.homelessTonight", .equals, some (.vBool true)⟩
        (JValue.vObj [("sessionId", JValue.vStr "s1")]) = false
    ∧ walkPath ([] ++ "situation" :: ["homelessTonight"])
        (JValue.vObj [("sessionId", JValue.vStr "s1")]) = none := by
  refine ⟨rfl, ?_, ?_⟩
  · exact c3_missing_path_segments_resolve_to_undefined.2
      (JValue.vObj [("sessionId", JValue.vStr "s1")]) rfl
  · exact c3_missing_path_segments_resolve_to_undefined.1
      [] "situation" ["homelessTonight"] _ _ rfl rfl

/-- C8: when the rule value is not an array, the `in` operator and the
`notIn` operator both evaluate to `false` (so `notIn` is not the
logical negation of `in` on those inputs). -/
theorem c8_in_notIn_non_array_value (fld : String) (v : Option JValue) (st : JValue)
    (h : isArrayValue v = false) :
    evaluateConditionRule ⟨fld, .inOp, v⟩ st = false
    ∧ evaluateConditionRule ⟨fld, .notIn, v⟩ st = false
    ∧ evaluateConditionRule ⟨fld, .notIn, v⟩ st
        ≠ !evaluateConditionRule ⟨fld, .inOp, v⟩ st := by
  rcases v with _ | val
  · exact ⟨rfl, rfl, by simp [evaluateConditionRule]⟩
  · cases val with
    | vArr xs => exact absurd h (by simp [isArrayValue])
    | vNull => exact ⟨rfl, rfl, by simp [evaluateConditionRule]⟩
    | vBool b => exact ⟨rfl, rfl, by simp [evaluateConditionRule]⟩
    | vNum n => exact ⟨rfl, rfl, by simp [evaluateConditionRule]⟩
    | vStr s => exact ⟨rfl, rfl, by simp [evaluateConditionRule]⟩
    | vObj fs => exact ⟨rfl, rfl, by simp [evaluateConditionRule]⟩

/-- C8 witness: a concrete non-array rule value. -/
theorem c8_witness :
    isArrayValue (some (.vStr "x")) = false
    ∧ evaluateConditionRule ⟨"f", .inOp, some (.vStr "x")⟩ (.vObj []) = false
    ∧ evaluateConditionRule ⟨"f", .notIn, some (.vStr "x")⟩ (.vObj []) = false := by
  have h := c8_in_notIn_non_array_value "f" (some (.vStr "x")) (.vObj []) rfl
  exact ⟨rfl, h.1, h.2.1⟩

/-- C10: `exists` evaluates true exactly when the resolved field value
is neither `undefined` nor `null` (an explicit `null` counts as not
existing), and `notExists` is the exact boolean negation of `exists`
on the same inputs. -/
theorem c10_exists_notExists_semantics (fld : String) (v : Option JValue) (st : JValue) :
    (evaluateConditionRule ⟨fld, .existsOp, v⟩ st = true
      ↔ (getFieldValue fld st ≠ none ∧ getFieldValue fld st ≠ some JValue.vNull))
    ∧ evaluateConditionRule ⟨fld, .notExists, v⟩ st
      = !evaluateConditionRule ⟨fld, .existsOp, v⟩ st := by
  rcases hfv : getFieldValue fld st with _ | val
  · constructor <;> simp [evaluateConditionRule, hfv]
  · cases val <;> constructor <;> simp [evaluateConditionRule, hfv]

/-- C5: `executeAction` returns status `pending` when `prepareAction`
reports `canExecute` false (with a message listing the missing items);
otherwise `pending` when the action urgency is `critical` or `high`;
otherwise `completed` — and no status other than `pending` and
`completed` is ever produced. -/
theorem c5_executeAction_status (action : ActionTemplate) (st : JValue) (now : String) :
    ((prepareAction action st).canExecute = false →
        (executeAction action st now).status = .pending
        ∧ (executeAction action st now).message
            = some ("Missing required information: "
                ++ String.intercalate ", " (prepareAction action st).missingInformation))
    ∧ ((prepareAction action st).canExecute = true →
        (action.urgency = some .critical ∨ action.urgency = some .high) →
        (executeAction action st now).status = .pending)
    ∧ ((prepareAction action st).canExecute = true →
        ¬ (action.urgency = some .critical ∨ action.urgency = some .high) →
        (executeAction action st now).status = .completed)
    ∧ ((executeAction action st now).status = .pending
        ∨ (executeAction action st now).status = .completed) := by
  unfold executeAction
  by_cases hc : (prepareAction action st).canExecute
  · by_cases hu : action.urgency = some .critical ∨ action.urgency = some .high
    · simp [hc, hu]
    · simp [hc, hu]
  · simp only [Bool.not_eq_true] at hc
    simp [hc]

/-- C5 witness: a concrete action with nothing missing and no urgency
is completed. -/
theorem c5_witness :
    (prepareAction plainAction (.vObj [])).canExecute = true
    ∧ ¬ (plainAction.urgency = some .critical ∨ plainAction.urgency = some .high)
    ∧ (executeAction plainAction (.vObj []) "2026-01-01T00:00:00.000Z").status
        = .completed := by
  have h := c5_executeAction_status plainAction (.vObj []) "2026-01-01T00:00:00.000Z"
  exact ⟨by decide, by decide, h.2.2.1 (by decide) (by decide)⟩

/-- C7: the claim that `formatActionSteps` performs no state mutation
fails on the code at this input: the source sorts `action.steps` with
`Array.prototype.sort`, which reorders the array in place, so an action
whose steps arrive out of numeric order is observably changed by the
call (its steps array ends up sorted), contradicting the specified
purity.  The sibling sorts in `evaluateRules` and `executeActions` copy
with a spread before sorting; this one does not. -/
theorem c7_formatActionSteps_mutates_out_of_order_steps :
    outOfOrderAction.steps = some [stepTwo, stepOne]
    ∧ (formatActionSteps outOfOrderAction).2.steps = some [stepOne, stepTwo]
    ∧ (formatActionSteps outOfOrderAction).2 ≠ outOfOrderAction := by
  refine ⟨rfl, rfl, ?_⟩
  intro h
  have hsteps := congrArg ActionTemplate.steps h
  rw [show (formatActionSteps outOfOrderAction).2.steps = some [stepOne, stepTwo] from rfl]
    at hsteps
  rw [show outOfOrderAction.steps = some [stepTwo, stepOne] from rfl] at hsteps
  have : stepOne = stepTwo := by
    injection hsteps with h1
    injection h1
  exact absurd (congrArg ActionStep.order this) (by decide)
